import Mathlib

/-!
Verification of the `idsteamed` repository (Go, `src/main.go`) against its
natural-language specification.

The development shallowly embeds the program's data model and operations:
pure string processing (`sanitizeFilename`) is translated character by
character; the effectful functions (`findSteamGameID`, `processSingleGame`,
the worker pool in `main`) are translated by making each external I/O
outcome (HTTP response, JSON decode, file stat/read/write) an explicit
parameter, so that every function is total and deterministic in its inputs.
Machine strings are `String` / `List Char`; Go `int` is `Int`.
-/

namespace IdSteamed

/-! ### Name Sanitizer (src/main.go, `sanitizeFilename`, lines 141-164) -/

/-- The character test from lines 145-148: ASCII letters, digits, space,
hyphen, underscore. -/
def isValidChar (c : Char) : Bool :=
  (decide ('a' ≤ c) && decide (c ≤ 'z')) ||
  (decide ('A' ≤ c) && decide (c ≤ 'Z')) ||
  (decide ('0' ≤ c) && decide (c ≤ '9')) ||
  c == ' ' || c == '-' || c == '_'

/-- Lines 149-153: a valid character is kept, any other is replaced by an
underscore. -/
def substituteInvalid (c : Char) : Char :=
  if isValidChar c then c else '_'

/-- The RE2 character class `\s`, as used by Go's `regexp` package:
tab, newline, form feed, carriage return, space. -/
def isRegexpSpace (c : Char) : Bool :=
  c == '\t' || c == '\n' || c == '\x0c' || c == '\x0d' || c == ' '

/-- The character class `[_\s]` of the regular expression on line 157. -/
def isCollapsible (c : Char) : Bool :=
  c == '_' || isRegexpSpace c

/-- Semantics of `regexp.ReplaceAllString` with pattern `[p]+` and
replacement `"_"` (line 158): every maximal run of characters satisfying
`p` becomes a single underscore.  The boolean state records whether the
previous character was part of such a run. -/
def collapseRuns (p : Char → Bool) : Bool → List Char → List Char
  | _, [] => []
  | inRun, c :: rest =>
    if p c then
      if inRun then collapseRuns p true rest
      else '_' :: collapseRuns p true rest
    else c :: collapseRuns p false rest

/-- Left half of `strings.Trim(cleaned, "_")` (line 161). -/
def trimLeadingUnderscores (l : List Char) : List Char :=
  l.dropWhile (fun c => c == '_')

/-- Right half of `strings.Trim(cleaned, "_")` (line 161): remove the
maximal trailing run of underscores. -/
def trimTrailingUnderscores : List Char → List Char
  | [] => []
  | c :: rest =>
    match trimTrailingUnderscores rest with
    | [] => if c == '_' then [] else [c]
    | r => c :: r

/-- `sanitizeFilename` on the character list of the input. -/
def sanitizeChars (l : List Char) : List Char :=
  trimTrailingUnderscores
    (trimLeadingUnderscores
      (collapseRuns isCollapsible false (l.map substituteInvalid)))

/-- `sanitizeFilename` (src/main.go lines 141-164): substitute invalid
characters with underscores, collapse runs of spaces/underscores, trim
leading and trailing underscores. -/
def sanitizeFilename (s : String) : String :=
  String.mk (sanitizeChars s.data)

/-! Reference algorithm, written from the spec's words (section 4.1):
"replace every character outside {letters, digits, space, hyphen,
underscore} with underscore; collapse any maximal run of
spaces/underscores into a single underscore; strip leading/trailing
underscores".  "Letters" and "digits" are read as ASCII `a-z`, `A-Z`,
`0-9` (the filename-safe reading the spec's own example uses); "space" is
the space character. -/

/-- The spec's collapsible class: space or underscore. -/
def specCollapsible (c : Char) : Bool :=
  c == ' ' || c == '_'

/-- The sanitization algorithm exactly as the spec states it. -/
def specSanitize (s : String) : String :=
  String.mk
    (trimTrailingUnderscores
      (trimLeadingUnderscores
        (collapseRuns specCollapsible false (s.data.map substituteInvalid))))

/-- No two adjacent characters are each a space or an underscore. -/
def noAdjacentSpaceUnderscore : List Char → Bool
  | a :: b :: rest =>
    !(specCollapsible a && specCollapsible b) && noAdjacentSpaceUnderscore (b :: rest)
  | _ => true

/-- No two adjacent characters both satisfy `p`. -/
def pairwiseApart (p : Char → Bool) : List Char → Bool
  | a :: b :: rest => !(p a && p b) && pairwiseApart p (b :: rest)
  | _ => true

example : sanitizeFilename "The Witcher 3: Wild Hunt" = "The_Witcher_3_Wild_Hunt" := by
  decide

example : sanitizeFilename "__a  b__" = "a_b" := by decide

example : specSanitize "The Witcher 3: Wild Hunt" = "The_Witcher_3_Wild_Hunt" := by
  decide

/-! ### Lemmas about the sanitizer -/

theorem isValidChar_substituteInvalid (c : Char) :
    isValidChar (substituteInvalid c) = true := by
  unfold substituteInvalid
  split
  · assumption
  · decide

theorem collapseRuns_cons_run_true {p : Char → Bool} {c : Char} {rest : List Char}
    (hp : p c = true) :
    collapseRuns p true (c :: rest) = collapseRuns p true rest := by
  simp [collapseRuns, hp]

theorem collapseRuns_cons_run_false {p : Char → Bool} {c : Char} {rest : List Char}
    (hp : p c = true) :
    collapseRuns p false (c :: rest) = '_' :: collapseRuns p true rest := by
  simp [collapseRuns, hp]

theorem collapseRuns_cons_keep {p : Char → Bool} {c : Char} {rest : List Char}
    (hp : p c = false) (b : Bool) :
    collapseRuns p b (c :: rest) = c :: collapseRuns p false rest := by
  simp [collapseRuns, hp]

theorem pairwiseApart_cons_cons (p : Char → Bool) (a b : Char) (l : List Char) :
    pairwiseApart p (a :: b :: l) = (!(p a && p b) && pairwiseApart p (b :: l)) := by
  simp [pairwiseApart]

theorem mem_collapseRuns {p : Char → Bool} {c : Char} :
    ∀ {l : List Char} {b : Bool}, c ∈ collapseRuns p b l →
      c = '_' ∨ (c ∈ l ∧ p c = false) := by
  intro l
  induction l with
  | nil => intro b h; simp [collapseRuns] at h
  | cons a rest ih =>
    intro b h
    by_cases hp : p a = true
    · have hmem : c ∈ collapseRuns p true rest ∨ c = '_' := by
        rcases Bool.eq_false_or_eq_true b with hb | hb <;> subst hb
        · rw [collapseRuns_cons_run_true hp] at h
          exact Or.inl h
        · rw [collapseRuns_cons_run_false hp] at h
          rcases List.mem_cons.mp h with hc | hc
          · exact Or.inr hc
          · exact Or.inl hc
      rcases hmem with hc | hc
      · rcases ih hc with h1 | ⟨h2, h3⟩
        · exact Or.inl h1
        · exact Or.inr ⟨List.mem_cons_of_mem a h2, h3⟩
      · exact Or.inl hc
    · have hp' : p a = false := by simpa using hp
      rw [collapseRuns_cons_keep hp'] at h
      rcases List.mem_cons.mp h with hc | hc
      · subst hc; exact Or.inr ⟨List.mem_cons_self c rest, hp'⟩
      · rcases ih hc with h1 | ⟨h2, h3⟩
        · exact Or.inl h1
        · exact Or.inr ⟨List.mem_cons_of_mem a h2, h3⟩

theorem pairwiseApart_tail {p : Char → Bool} {a : Char} {l : List Char}
    (h : pairwiseApart p (a :: l) = true) : pairwiseApart p l = true := by
  cases l with
  | nil => rfl
  | cons b rest =>
    rw [pairwiseApart_cons_cons] at h
    exact (Bool.and_eq_true_iff.mp h).2

theorem head_collapseRuns_true {p : Char → Bool} {c : Char} :
    ∀ {l : List Char}, (collapseRuns p true l).head? = some c → p c = false := by
  intro l
  induction l with
  | nil => intro h; simp [collapseRuns] at h
  | cons a rest ih =>
    intro h
    by_cases hp : p a = true
    · rw [collapseRuns_cons_run_true hp] at h
      exact ih h
    · have hp' : p a = false := by simpa using hp
      rw [collapseRuns_cons_keep hp'] at h
      simp only [List.head?_cons, Option.some.injEq] at h
      subst h; exact hp'

theorem pairwiseApart_collapseRuns {p : Char → Bool} :
    ∀ (l : List Char) (b : Bool), pairwiseApart p (collapseRuns p b l) = true := by
  intro l
  induction l with
  | nil => intro b; rfl
  | cons a rest ih =>
    intro b
    by_cases hp : p a = true
    · rcases Bool.eq_false_or_eq_true b with hb | hb <;> subst hb
      · rw [collapseRuns_cons_run_true hp]
        exact ih true
      · rw [collapseRuns_cons_run_false hp]
        cases hrest : collapseRuns p true rest with
        | nil => rfl
        | cons d t =>
          have hd : p d = false := by
            apply head_collapseRuns_true (l := rest)
            rw [hrest]; rfl
          rw [pairwiseApart_cons_cons, ← hrest, ih true]
          simp [hd]
    · have hp' : p a = false := by simpa using hp
      rw [collapseRuns_cons_keep hp']
      cases hrest : collapseRuns p false rest with
      | nil => rfl
      | cons d t =>
        rw [pairwiseApart_cons_cons, ← hrest, ih false]
        simp [hp']

theorem pairwiseApart_mono {p q : Char → Bool} (hpq : ∀ c, q c = true → p c = true) :
    ∀ {l : List Char}, pairwiseApart p l = true → pairwiseApart q l = true := by
  intro l
  induction l with
  | nil => intro h; rfl
  | cons a rest ih =>
    intro h
    cases rest with
    | nil => rfl
    | cons b t =>
      rw [pairwiseApart_cons_cons] at h ⊢
      rcases Bool.and_eq_true_iff.mp h with ⟨h1, h2⟩
      refine Bool.and_eq_true_iff.mpr ⟨?_, ih h2⟩
      by_cases hqa : q a = true
      · by_cases hqb : q b = true
        · exfalso
          have hpa := hpq a hqa
          have hpb := hpq b hqb
          simp_all
        · simp_all
      · simp_all

theorem pairwiseApart_dropWhile {p q : Char → Bool} :
    ∀ {l : List Char}, pairwiseApart p l = true →
      pairwiseApart p (l.dropWhile q) = true := by
  intro l
  induction l with
  | nil => intro h; exact h
  | cons a rest ih =>
    intro h
    rw [List.dropWhile_cons]
    split
    · exact ih (pairwiseApart_tail h)
    · exact h

theorem head_dropWhile_false {q : Char → Bool} {c : Char} :
    ∀ {l : List Char}, ((l.dropWhile q).head? = some c) → q c = false := by
  intro l
  induction l with
  | nil => intro h; simp at h
  | cons a rest ih =>
    intro h
    rw [List.dropWhile_cons] at h
    by_cases hq : q a = true
    · rw [if_pos hq] at h
      exact ih h
    · have hq' : q a = false := by simpa using hq
      rw [if_neg (by simp [hq'])] at h
      simp only [List.head?_cons, Option.some.injEq] at h
      subst h; exact hq'

theorem dropWhile_of_head {q : Char → Bool} {l : List Char}
    (h : ∀ c, l.head? = some c → q c = false) : l.dropWhile q = l := by
  cases l with
  | nil => rfl
  | cons a rest =>
    have ha := h a rfl
    rw [List.dropWhile_cons, if_neg (by simp [ha])]

theorem trimTrailingUnderscores_cons_of_nil {c : Char} {rest : List Char}
    (h : trimTrailingUnderscores rest = []) :
    trimTrailingUnderscores (c :: rest) = if c == '_' then [] else [c] := by
  simp only [trimTrailingUnderscores, h]

theorem trimTrailingUnderscores_cons_of_cons {c d : Char} {rest t : List Char}
    (h : trimTrailingUnderscores rest = d :: t) :
    trimTrailingUnderscores (c :: rest) = c :: d :: t := by
  simp only [trimTrailingUnderscores, h]

theorem trimTrailingUnderscores_head :
    ∀ (l : List Char), trimTrailingUnderscores l = [] ∨
      (trimTrailingUnderscores l).head? = l.head? := by
  intro l
  cases l with
  | nil => exact Or.inl rfl
  | cons c rest =>
    cases htr : trimTrailingUnderscores rest with
    | nil =>
      by_cases hc : c = '_'
      · left
        rw [trimTrailingUnderscores_cons_of_nil htr, if_pos (by simp [hc])]
      · right
        rw [trimTrailingUnderscores_cons_of_nil htr, if_neg (by simp [hc])]
        rfl
    | cons d t =>
      right
      rw [trimTrailingUnderscores_cons_of_cons htr]
      rfl

theorem mem_trimTrailingUnderscores {c : Char} :
    ∀ {l : List Char}, c ∈ trimTrailingUnderscores l → c ∈ l := by
  intro l
  induction l with
  | nil => intro h; exact h
  | cons a rest ih =>
    intro h
    cases htr : trimTrailingUnderscores rest with
    | nil =>
      rw [trimTrailingUnderscores_cons_of_nil htr] at h
      by_cases ha : a = '_'
      · rw [if_pos (by simp [ha])] at h
        simp at h
      · rw [if_neg (by simp [ha])] at h
        simp only [List.mem_singleton] at h
        subst h; exact List.mem_cons_self c rest
    | cons d t =>
      rw [trimTrailingUnderscores_cons_of_cons htr] at h
      rcases List.mem_cons.mp h with hc | hc
      · subst hc; exact List.mem_cons_self c rest
      · exact List.mem_cons_of_mem a (ih (htr ▸ hc))

theorem pairwiseApart_trimTrailingUnderscores {p : Char → Bool} :
    ∀ {l : List Char}, pairwiseApart p l = true →
      pairwiseApart p (trimTrailingUnderscores l) = true := by
  intro l
  induction l with
  | nil => intro h; exact h
  | cons a rest ih =>
    intro h
    cases htr : trimTrailingUnderscores rest with
    | nil =>
      rw [trimTrailingUnderscores_cons_of_nil htr]
      split
      · rfl
      · rfl
    | cons d t =>
      rw [trimTrailingUnderscores_cons_of_cons htr]
      rcases trimTrailingUnderscores_head rest with hnil | hhead
      · rw [hnil] at htr; exact absurd htr (by simp)
      · rw [htr] at hhead
        cases rest with
        | nil => simp at hhead
        | cons b rest₀ =>
          simp only [List.head?_cons, Option.some.injEq] at hhead
          subst hhead
          rw [pairwiseApart_cons_cons]
          have h1 : (!(p a && p d)) = true := by
            rw [pairwiseApart_cons_cons] at h
            exact (Bool.and_eq_true_iff.mp h).1
          have h2 : pairwiseApart p (d :: t) = true := by
            rw [← htr]
            exact ih (pairwiseApart_tail h)
          rw [h1, h2]
          rfl

theorem getLast_trimTrailingUnderscores {c : Char} :
    ∀ {l : List Char}, (trimTrailingUnderscores l).getLast? = some c →
      (c == '_') = false := by
  intro l
  induction l with
  | nil => intro h; simp [trimTrailingUnderscores] at h
  | cons a rest ih =>
    intro h
    cases htr : trimTrailingUnderscores rest with
    | nil =>
      rw [trimTrailingUnderscores_cons_of_nil htr] at h
      by_cases ha : a = '_'
      · rw [if_pos (by simp [ha])] at h
        simp at h
      · rw [if_neg (by simp [ha])] at h
        simp only [List.getLast?_singleton, Option.some.injEq] at h
        subst h
        simp [ha]
    | cons d t =>
      rw [trimTrailingUnderscores_cons_of_cons htr, List.getLast?_cons_cons] at h
      exact ih (htr ▸ h)

theorem trimTrailingUnderscores_of_getLast {l : List Char}
    (h : ∀ c, l.getLast? = some c → (c == '_') = false) :
    trimTrailingUnderscores l = l := by
  induction l with
  | nil => rfl
  | cons a rest ih =>
    cases rest with
    | nil =>
      have ha := h a rfl
      rw [trimTrailingUnderscores_cons_of_nil
            (show trimTrailingUnderscores [] = [] from rfl),
          if_neg (by simpa using ha)]
    | cons b rest₀ =>
      have hrest : trimTrailingUnderscores (b :: rest₀) = b :: rest₀ := by
        apply ih
        intro c hc
        apply h
        rw [List.getLast?_cons_cons]
        exact hc
      rw [trimTrailingUnderscores_cons_of_cons hrest]

/-- On valid characters the regex class `[_\s]` of the source coincides
with the spec's class {space, underscore}: the only whitespace a valid
character can be is the space itself. -/
theorem isCollapsible_eq_specCollapsible_of_valid {c : Char}
    (hv : isValidChar c = true) : isCollapsible c = specCollapsible c := by
  by_cases h1 : c = '_'
  · subst h1; decide
  by_cases h2 : c = ' '
  · subst h2; decide
  have ht : ¬c = '\t' := fun h => absurd hv (by subst h; decide)
  have hn : ¬c = '\n' := fun h => absurd hv (by subst h; decide)
  have hf : ¬c = '\x0c' := fun h => absurd hv (by subst h; decide)
  have hr : ¬c = '\x0d' := fun h => absurd hv (by subst h; decide)
  have b1 : (c == '_') = false := by simpa using h1
  have b2 : (c == ' ') = false := by simpa using h2
  have b3 : (c == '\t') = false := by simpa using ht
  have b4 : (c == '\n') = false := by simpa using hn
  have b5 : (c == '\x0c') = false := by simpa using hf
  have b6 : (c == '\x0d') = false := by simpa using hr
  simp [isCollapsible, isRegexpSpace, specCollapsible, b1, b2, b3, b4, b5, b6]

theorem specCollapsible_isCollapsible {c : Char}
    (h : specCollapsible c = true) : isCollapsible c = true := by
  simp only [specCollapsible, Bool.or_eq_true, beq_iff_eq] at h
  rcases h with h | h <;> subst h <;> decide

theorem collapseRuns_congr {p q : Char → Bool} :
    ∀ {l : List Char}, (∀ c ∈ l, p c = q c) → ∀ b,
      collapseRuns p b l = collapseRuns q b l := by
  intro l
  induction l with
  | nil => intro _ b; rfl
  | cons a rest ih =>
    intro h b
    have ha : p a = q a := h a (List.mem_cons_self a rest)
    have hrest : ∀ c ∈ rest, p c = q c := fun c hc => h c (List.mem_cons_of_mem a hc)
    by_cases hp : p a = true
    · have hq : q a = true := ha ▸ hp
      rcases Bool.eq_false_or_eq_true b with hb | hb <;> subst hb
      · rw [collapseRuns_cons_run_true hp, collapseRuns_cons_run_true hq, ih hrest]
      · rw [collapseRuns_cons_run_false hp, collapseRuns_cons_run_false hq, ih hrest]
    · have hp' : p a = false := by simpa using hp
      have hq' : q a = false := ha ▸ hp'
      rw [collapseRuns_cons_keep hp', collapseRuns_cons_keep hq', ih hrest]

/-- Collapsing is the identity on a list whose only collapsible characters
are underscores and in which no two adjacent characters are collapsible. -/
theorem collapseRuns_id {p : Char → Bool} :
    ∀ {l : List Char}, (∀ c ∈ l, p c = true → c = '_') →
      pairwiseApart p l = true →
      (collapseRuns p false l = l ∧
        ((∀ c, l.head? = some c → p c = false) → collapseRuns p true l = l)) := by
  intro l
  induction l with
  | nil => intro _ _; exact ⟨rfl, fun _ => rfl⟩
  | cons a rest ih =>
    intro hus hpw
    have hus' : ∀ c ∈ rest, p c = true → c = '_' :=
      fun c hc => hus c (List.mem_cons_of_mem a hc)
    have hpw' : pairwiseApart p rest = true := pairwiseApart_tail hpw
    rcases ih hus' hpw' with ⟨ihf, iht⟩
    by_cases hp : p a = true
    · have ha : a = '_' := hus a (List.mem_cons_self a rest) hp
      have hheadrest : ∀ c, rest.head? = some c → p c = false := by
        intro c hc
        cases rest with
        | nil => simp at hc
        | cons b t =>
          simp only [List.head?_cons, Option.some.injEq] at hc
          rw [← hc]
          rw [pairwiseApart_cons_cons] at hpw
          have hone := (Bool.and_eq_true_iff.mp hpw).1
          rcases Bool.eq_false_or_eq_true (p b) with hb | hb
          · rw [hp, hb] at hone; simp at hone
          · exact hb
      constructor
      · rw [collapseRuns_cons_run_false hp, iht hheadrest, ha]
      · intro hhead
        have := hhead a rfl
        rw [hp] at this
        simp at this
    · have hp' : p a = false := by simpa using hp
      have hgoal : collapseRuns p false (a :: rest) = a :: rest := by
        rw [collapseRuns_cons_keep hp', ihf]
      refine ⟨hgoal, fun _ => ?_⟩
      rw [collapseRuns_cons_keep hp', ihf]

/-! ### Characterization of the sanitizer's output -/

theorem sanitizeChars_mem {l : List Char} {c : Char}
    (h : c ∈ sanitizeChars l) :
    isValidChar c = true ∧ (isCollapsible c = true → c = '_') := by
  have h1 : c ∈ trimLeadingUnderscores
      (collapseRuns isCollapsible false (l.map substituteInvalid)) :=
    mem_trimTrailingUnderscores h
  have h2 : c ∈ collapseRuns isCollapsible false (l.map substituteInvalid) :=
    (List.dropWhile_sublist _).mem h1
  rcases mem_collapseRuns h2 with hc | ⟨hmem, hcol⟩
  · subst hc
    exact ⟨by decide, fun _ => rfl⟩
  · rcases List.mem_map.mp hmem with ⟨a, _, ha⟩
    refine ⟨?_, fun hcl => ?_⟩
    · rw [← ha]; exact isValidChar_substituteInvalid a
    · rw [hcol] at hcl; simp at hcl

theorem sanitizeChars_pairwise (l : List Char) :
    pairwiseApart isCollapsible (sanitizeChars l) = true :=
  pairwiseApart_trimTrailingUnderscores
    (pairwiseApart_dropWhile (pairwiseApart_collapseRuns _ false))

theorem sanitizeChars_head {l : List Char} {c : Char}
    (h : (sanitizeChars l).head? = some c) : (c == '_') = false := by
  unfold sanitizeChars at h
  rcases trimTrailingUnderscores_head
      (trimLeadingUnderscores
        (collapseRuns isCollapsible false (l.map substituteInvalid))) with hnil | hh
  · rw [hnil] at h; simp at h
  · rw [hh] at h
    have := head_dropWhile_false (q := fun c => c == '_') h
    simpa using this

theorem sanitizeChars_getLast {l : List Char} {c : Char}
    (h : (sanitizeChars l).getLast? = some c) : (c == '_') = false :=
  getLast_trimTrailingUnderscores h

theorem map_id_of_mem {α : Type} {f : α → α} :
    ∀ {l : List α}, (∀ c ∈ l, f c = c) → l.map f = l := by
  intro l
  induction l with
  | nil => intro _; rfl
  | cons a rest ih =>
    intro h
    simp only [List.map_cons]
    rw [h a (List.mem_cons_self a rest),
      ih (fun c hc => h c (List.mem_cons_of_mem a hc))]

/-- Re-running the full pipeline on an output of `sanitizeChars` changes
nothing. -/
theorem sanitizeChars_idem (l : List Char) :
    sanitizeChars (sanitizeChars l) = sanitizeChars l := by
  set o := sanitizeChars l with ho
  have hmap : o.map substituteInvalid = o := by
    apply map_id_of_mem
    intro c hc
    have hv := (sanitizeChars_mem (ho ▸ hc)).1
    simp [substituteInvalid, hv]
  have hus : ∀ c ∈ o, isCollapsible c = true → c = '_' :=
    fun c hc => (sanitizeChars_mem (ho ▸ hc)).2
  have hpw : pairwiseApart isCollapsible o = true := ho ▸ sanitizeChars_pairwise l
  have hcol : collapseRuns isCollapsible false o = o := (collapseRuns_id hus hpw).1
  have hdrop : trimLeadingUnderscores o = o := by
    apply dropWhile_of_head
    intro c hc
    exact sanitizeChars_head (ho ▸ hc)
  have htrim : trimTrailingUnderscores o = o := by
    apply trimTrailingUnderscores_of_getLast
    intro c hc
    exact sanitizeChars_getLast (ho ▸ hc)
  show trimTrailingUnderscores
      (trimLeadingUnderscores (collapseRuns isCollapsible false (o.map substituteInvalid))) = o
  rw [hmap, hcol, hdrop, htrim]

theorem noAdjacentSpaceUnderscore_cons_cons (a b : Char) (l : List Char) :
    noAdjacentSpaceUnderscore (a :: b :: l) =
      (!(specCollapsible a && specCollapsible b) && noAdjacentSpaceUnderscore (b :: l)) := by
  simp [noAdjacentSpaceUnderscore]

theorem noAdjacentSpaceUnderscore_eq_pairwiseApart :
    ∀ (l : List Char),
      noAdjacentSpaceUnderscore l = pairwiseApart specCollapsible l := by
  intro l
  induction l with
  | nil => rfl
  | cons a rest ih =>
    cases rest with
    | nil => rfl
    | cons b t =>
      rw [noAdjacentSpaceUnderscore_cons_cons, pairwiseApart_cons_cons, ih]

/-! ### Claim theorems about the sanitizer -/

/-- Claim C1: `sanitizeFilename` is total and deterministic (it is a Lean
function), and for every input string its output contains only letters,
digits, space, hyphen, underscore; has no leading or trailing underscore;
and has no two adjacent characters that are each a space or an
underscore. -/
theorem sanitizeFilename_output_invariants (s : String) :
    (∀ c ∈ (sanitizeFilename s).data, isValidChar c = true) ∧
    (sanitizeFilename s).data.head? ≠ some '_' ∧
    (sanitizeFilename s).data.getLast? ≠ some '_' ∧
    noAdjacentSpaceUnderscore (sanitizeFilename s).data = true := by
  refine ⟨?_, ?_, ?_, ?_⟩
  · intro c hc
    exact (sanitizeChars_mem (l := s.data) hc).1
  · intro h
    have := sanitizeChars_head (l := s.data) h
    simp at this
  · intro h
    have := sanitizeChars_getLast (l := s.data) h
    simp at this
  · rw [noAdjacentSpaceUnderscore_eq_pairwiseApart]
    exact pairwiseApart_mono (fun c hc => specCollapsible_isCollapsible hc)
      (sanitizeChars_pairwise s.data)

/-- Claim C2: `sanitizeFilename` coincides with the reference algorithm
written from the spec (substitute invalid characters with underscores,
collapse maximal runs of spaces/underscores to one underscore, strip
leading/trailing underscores), and the spec's worked example holds. -/
theorem sanitizeFilename_matches_spec :
    (∀ s : String, sanitizeFilename s = specSanitize s) ∧
    sanitizeFilename "The Witcher 3: Wild Hunt" = "The_Witcher_3_Wild_Hunt" := by
  constructor
  · intro s
    have hagree : ∀ c ∈ s.data.map substituteInvalid,
        isCollapsible c = specCollapsible c := by
      intro c hc
      rcases List.mem_map.mp hc with ⟨a, _, ha⟩
      exact isCollapsible_eq_specCollapsible_of_valid
        (ha ▸ isValidChar_substituteInvalid a)
    show String.mk (sanitizeChars s.data) = _
    unfold specSanitize sanitizeChars
    rw [collapseRuns_congr hagree false]
  · decide

/-- Claim C9: sanitizing is idempotent — re-sanitizing an
already-sanitized key is a no-op, for every input string. -/
theorem sanitizeFilename_idempotent (s : String) :
    sanitizeFilename (sanitizeFilename s) = sanitizeFilename s := by
  show String.mk (sanitizeChars (sanitizeChars s.data)) = String.mk (sanitizeChars s.data)
  rw [sanitizeChars_idem]

/-- Claim C10: the output of `sanitizeFilename` never contains a space:
every maximal run of spaces/underscores, a lone space included, is
replaced by a single underscore. -/
theorem sanitizeFilename_no_space (s : String) :
    ' ' ∉ (sanitizeFilename s).data := by
  intro h
  have hm := (sanitizeChars_mem (l := s.data) h).2
  have := hm (by decide)
  exact absurd this (by decide)

/-! ### Resolver Client (src/main.go, `findSteamGameID`, lines 51-138)

The effectful parts (HTTP request, body read, JSON decode) are embedded by
passing each external outcome explicitly, so `findSteamGameID` is a total
function of the game name and those outcomes. -/

/-- One element of the `items` array of the API response (lines 36-39);
`id` is a Go `int`, embedded as `Int`. -/
structure SteamItem where
  id : Int
  name : String
deriving DecidableEq

/-- The JSON response from the Steam Store API (lines 35-40). -/
structure SteamAPIResponse where
  items : List SteamItem
deriving DecidableEq

/-- The error cases of `findSteamGameID`, one per `return 0, err` site. -/
inductive ResolveError where
  | emptyName : ResolveError
  | network (msg : String) : ResolveError
  | httpStatus (code : Nat) : ResolveError
  | readBody (msg : String) : ResolveError
  | decode (msg : String) : ResolveError
  | notFound : ResolveError
deriving DecidableEq

instance instDecidableEqExcept {ε α : Type} [DecidableEq ε] [DecidableEq α] :
    DecidableEq (Except ε α) := fun a b =>
  match a, b with
  | .error e, .error f =>
    if h : e = f then .isTrue (congrArg Except.error h)
    else .isFalse (fun hc => h (Except.error.inj hc))
  | .error _, .ok _ => .isFalse (fun hc => Except.noConfusion hc)
  | .ok _, .error _ => .isFalse (fun hc => Except.noConfusion hc)
  | .ok x, .ok y =>
    if h : x = y then .isTrue (congrArg Except.ok h)
    else .isFalse (fun hc => h (Except.ok.inj hc))

/-- Outcomes of the external calls made by `findSteamGameID`:
the HTTP GET (network error, or a status code with a body-read outcome)
and the `json.Unmarshal` of the body. -/
structure ResolveEnv where
  httpResult : Except String (Nat × Except String String)
  jsonResult : Except String SteamAPIResponse
deriving DecidableEq

/-- `findSteamGameID` (lines 51-138): reject the empty name, propagate
network errors, require HTTP status 200, propagate body-read and JSON
decode errors, and return the id of the first item of the parsed result
list, or a not-found error when the list is empty. -/
def findSteamGameID (gameName : String) (env : ResolveEnv) : Except ResolveError Int :=
  if gameName = "" then .error .emptyName
  else
    match env.httpResult with
    | .error e => .error (.network e)
    | .ok (statusCode, bodyResult) =>
      if statusCode ≠ 200 then .error (.httpStatus statusCode)
      else
        match bodyResult with
        | .error e => .error (.readBody e)
        | .ok _ =>
          match env.jsonResult with
          | .error e => .error (.decode e)
          | .ok apiResponse =>
            match apiResponse.items with
            | [] => .error .notFound
            | item :: _ => .ok item.id

/-! ### Item Processor (src/main.go, `processSingleGame`, lines 167-218) -/

/-- `fmt.Sscanf(content, "%d", &x)` (line 182): skip leading blanks, read
an optional sign and at least one decimal digit; anything else fails. -/
def isAsciiDigit (c : Char) : Bool :=
  decide ('0' ≤ c) && decide (c ≤ '9')

/-- Value of a digit string. -/
def digitsToNat (ds : List Char) : Nat :=
  ds.foldl (fun acc c => acc * 10 + (c.toNat - 48)) 0

/-- The leading decimal integer of a character list, in the manner of
`fmt.Sscanf` with verb `%d`: `none` when no digits are found. -/
def sscanfLeadingInt (l : List Char) : Option Int :=
  let t := l.dropWhile (fun c => c == ' ' || c == '\t')
  let signed : Bool × List Char :=
    match t with
    | '-' :: rest => (true, rest)
    | '+' :: rest => (false, rest)
    | _ => (false, t)
  let ds := signed.2.takeWhile isAsciiDigit
  if ds.isEmpty then none
  else
    let v : Int := Int.ofNat (digitsToNat ds)
    some (if signed.1 then -v else v)

/-- The per-item error of a `GameResult`: either the resolver's error or
the wrapped message of a failed file write (line 209). -/
inductive ProcError where
  | resolveError (e : ResolveError) : ProcError
  | writeFileError (msg : String) : ProcError
deriving DecidableEq

/-- `GameResult` (lines 43-48). A zero `gameID` and an absent `error`
stand for Go's zero values. -/
structure GameResult where
  gameName : String
  gameID : Int
  success : Bool
  error : Option ProcError
deriving DecidableEq

/-- Outcomes of the external calls made by `processSingleGame` for one
game: the `os.Stat` probe (`fileExists` is `err == nil`), the
`os.ReadFile` outcome, the resolver's external outcomes, and the
`os.WriteFile` outcome (`none` on success). -/
structure ProcessEnv where
  fileExists : Bool
  readResult : Except String String
  resolve : ResolveEnv
  writeError : Option String
deriving DecidableEq

/-- The output path of lines 169-170: the sanitized name inside the
output directory, with the `.steam` suffix. -/
def steamFilePath (outputDirectory gameName : String) : String :=
  outputDirectory ++ "/" ++ sanitizeFilename gameName ++ ".steam"

/-- Lines 193-217 of `processSingleGame`: resolve the game id and write
the record; a resolver error or a write error each yield a failure
result (the write error wrapped as on line 209). -/
def resolveAndWrite (gameName : String) (env : ProcessEnv) : GameResult :=
  match findSteamGameID gameName env.resolve with
  | .error e =>
    { gameName := gameName, gameID := 0, success := false,
      error := some (.resolveError e) }
  | .ok gameID =>
    match env.writeError with
    | some msg =>
      { gameName := gameName, gameID := 0, success := false,
        error := some (.writeFileError ("error writing file: " ++ msg)) }
    | none =>
      { gameName := gameName, gameID := gameID, success := true, error := none }

/-- `processSingleGame` (lines 167-218): with skip-existing on and an
existing record whose content yields a leading integer, return that
integer as a success without resolving; otherwise fall through to
`resolveAndWrite`. -/
def processSingleGame (gameName : String) (shouldSkipExisting : Bool)
    (env : ProcessEnv) : GameResult :=
  if shouldSkipExisting && env.fileExists then
    match env.readResult with
    | .ok existingFileContent =>
      match sscanfLeadingInt existingFileContent.data with
      | some existingGameID =>
        { gameName := gameName, gameID := existingGameID, success := true,
          error := none }
      | none => resolveAndWrite gameName env
    | .error _ => resolveAndWrite gameName env
  else resolveAndWrite gameName env

example : sscanfLeadingInt "400".data = some 400 := by decide
example : sscanfLeadingInt "-7".data = some (-7) := by decide
example : sscanfLeadingInt " 12abc".data = some 12 := by decide
example : sscanfLeadingInt "abc".data = none := by decide
example : sscanfLeadingInt "".data = none := by decide

/-! ### Claim theorems about the resolver and the item processor -/

/-- Claim C5: once the response is parsed (non-empty name, HTTP 200, body
read, JSON decoded), an empty item list yields the not-found error, and
otherwise the identifier of the first item is returned whatever the
remaining items are. -/
theorem findSteamGameID_first_item (gameName body : String) (env : ResolveEnv)
    (apiResponse : SteamAPIResponse)
    (hname : gameName ≠ "")
    (hhttp : env.httpResult = .ok (200, .ok body))
    (hjson : env.jsonResult = .ok apiResponse) :
    (apiResponse.items = [] → findSteamGameID gameName env = .error .notFound) ∧
    (∀ item rest, apiResponse.items = item :: rest →
      findSteamGameID gameName env = .ok item.id) := by
  constructor
  · intro hempty
    simp [findSteamGameID, hname, hhttp, hjson, hempty]
  · intro item rest hcons
    simp [findSteamGameID, hname, hhttp, hjson, hcons]

def foundEnv : ResolveEnv :=
  { httpResult := .ok (200, .ok "body"),
    jsonResult := .ok { items := [{ id := 400, name := "Portal" },
                                  { id := 999, name := "Portal 2" }] } }

def emptyItemsEnv : ResolveEnv :=
  { httpResult := .ok (200, .ok "body"),
    jsonResult := .ok { items := [] } }

theorem findSteamGameID_first_item_witness :
    findSteamGameID "Portal" foundEnv = .ok 400 ∧
    findSteamGameID "Nonexistent Game XYZ123" emptyItemsEnv = .error .notFound :=
  ⟨(findSteamGameID_first_item "Portal" "body" foundEnv
      { items := [{ id := 400, name := "Portal" }, { id := 999, name := "Portal 2" }] }
      (by decide) rfl rfl).2 _ _ rfl,
   (findSteamGameID_first_item "Nonexistent Game XYZ123" "body" emptyItemsEnv
      { items := [] } (by decide) rfl rfl).1 rfl⟩

/-- Claim C3: with skip-existing enabled and an existing record, a stored
content with a leading integer is returned as a success carrying exactly
that integer — the returned result is a constant of the cache data, so
the resolver and writer outcomes in the environment are never consulted —
while a content with no leading integer falls through to the fresh
resolve-and-write path. -/
theorem processSingleGame_cache_path (gameName content : String)
    (env : ProcessEnv) (hex : env.fileExists = true)
    (hread : env.readResult = .ok content) :
    (∀ storedID, sscanfLeadingInt content.data = some storedID →
      processSingleGame gameName true env =
        { gameName := gameName, gameID := storedID, success := true,
          error := none }) ∧
    (sscanfLeadingInt content.data = none →
      processSingleGame gameName true env = resolveAndWrite gameName env) := by
  constructor
  · intro storedID hparse
    simp [processSingleGame, hex, hread, hparse]
  · intro hparse
    simp [processSingleGame, hex, hread, hparse]

/-- An environment whose resolver and writer both fail, but whose cache
holds a readable record. -/
def cacheHitEnv : ProcessEnv :=
  { fileExists := true, readResult := .ok "400",
    resolve := { httpResult := .error "network down",
                 jsonResult := .error "no body" },
    writeError := some "disk full" }

/-- A corrupt-cache variant of `cacheHitEnv` with a resolver that
succeeds. -/
def corruptCacheEnv : ProcessEnv :=
  { fileExists := true, readResult := .ok "not a number",
    resolve := foundEnv,
    writeError := none }

theorem processSingleGame_cache_path_witness :
    processSingleGame "Portal" true cacheHitEnv =
      { gameName := "Portal", gameID := 400, success := true, error := none } ∧
    processSingleGame "Portal" true corruptCacheEnv =
      resolveAndWrite "Portal" corruptCacheEnv :=
  ⟨(processSingleGame_cache_path "Portal" "400" cacheHitEnv rfl rfl).1 400 (by decide),
   (processSingleGame_cache_path "Portal" "not a number" corruptCacheEnv rfl rfl).2
     (by decide)⟩

/-- Claim C4: when resolution succeeds but the write fails, both the
resolve-and-write step and a full run reaching it return a failure
result wrapping the persistence error; the resolved identifier is not
reported as a success. -/
theorem processSingleGame_write_failure (gameName : String) (env : ProcessEnv)
    (resolvedID : Int) (msg : String)
    (hres : findSteamGameID gameName env.resolve = .ok resolvedID)
    (hwrite : env.writeError = some msg) :
    resolveAndWrite gameName env =
      { gameName := gameName, gameID := 0, success := false,
        error := some (.writeFileError ("error writing file: " ++ msg)) } ∧
    processSingleGame gameName false env =
      { gameName := gameName, gameID := 0, success := false,
        error := some (.writeFileError ("error writing file: " ++ msg)) } := by
  constructor
  · simp [resolveAndWrite, hres, hwrite]
  · simp [processSingleGame, resolveAndWrite, hres, hwrite]

/-- An environment whose resolver finds id 400 but whose write fails. -/
def writeFailEnv : ProcessEnv :=
  { fileExists := false, readResult := .error "missing",
    resolve := foundEnv,
    writeError := some "disk full" }

theorem processSingleGame_write_failure_witness :
    resolveAndWrite "Portal" writeFailEnv =
      { gameName := "Portal", gameID := 0, success := false,
        error := some (.writeFileError ("error writing file: " ++ "disk full")) } ∧
    processSingleGame "Portal" false writeFailEnv =
      { gameName := "Portal", gameID := 0, success := false,
        error := some (.writeFileError ("error writing file: " ++ "disk full")) } :=
  processSingleGame_write_failure "Portal" writeFailEnv 400 "disk full" (by decide) rfl

/-- A success of `resolveAndWrite` always carries the id the resolver
returned. -/
theorem resolveAndWrite_success_id (gameName : String) (env : ProcessEnv)
    (hs : (resolveAndWrite gameName env).success = true) :
    findSteamGameID gameName env.resolve =
      .ok (resolveAndWrite gameName env).gameID := by
  cases hfind : findSteamGameID gameName env.resolve with
  | error e =>
    have heq : resolveAndWrite gameName env =
        { gameName := gameName, gameID := 0, success := false,
          error := some (.resolveError e) } := by
      simp [resolveAndWrite, hfind]
    rw [heq] at hs
    simp at hs
  | ok resolvedID =>
    cases hw : env.writeError with
    | some msg =>
      have heq : resolveAndWrite gameName env =
          { gameName := gameName, gameID := 0, success := false,
            error := some (.writeFileError ("error writing file: " ++ msg)) } := by
        simp [resolveAndWrite, hfind, hw]
      rw [heq] at hs
      simp at hs
    | none =>
      have heq : resolveAndWrite gameName env =
          { gameName := gameName, gameID := resolvedID, success := true,
            error := none } := by
        simp [resolveAndWrite, hfind, hw]
      rw [heq]

/-- Claim C8 (amended): the identifier carried by a success result is the
parsed stored integer or the resolver's first-item id, with no sign
check of its own; it is non-negative whenever every such source is
non-negative.  Unconditional non-negativity fails, see
`processSingleGame_negative_id_counterexample`. -/
theorem processSingleGame_success_id_nonneg (gameName : String)
    (shouldSkipExisting : Bool) (env : ProcessEnv)
    (hstored : ∀ content storedID, env.readResult = .ok content →
      sscanfLeadingInt content.data = some storedID → 0 ≤ storedID)
    (hresolved : ∀ resolvedID,
      findSteamGameID gameName env.resolve = .ok resolvedID → 0 ≤ resolvedID)
    (hs : (processSingleGame gameName shouldSkipExisting env).success = true) :
    0 ≤ (processSingleGame gameName shouldSkipExisting env).gameID := by
  by_cases hskip : (shouldSkipExisting && env.fileExists) = true
  · cases hread : env.readResult with
    | ok content =>
      cases hparse : sscanfLeadingInt content.data with
      | some storedID =>
        have heq : processSingleGame gameName shouldSkipExisting env =
            { gameName := gameName, gameID := storedID, success := true,
              error := none } := by
          simp [processSingleGame, hskip, hread, hparse]
        rw [heq]
        exact hstored content storedID hread hparse
      | none =>
        have heq : processSingleGame gameName shouldSkipExisting env =
            resolveAndWrite gameName env := by
          simp [processSingleGame, hskip, hread, hparse]
        rw [heq] at hs ⊢
        exact hresolved _ (resolveAndWrite_success_id gameName env hs)
    | error e =>
      have heq : processSingleGame gameName shouldSkipExisting env =
          resolveAndWrite gameName env := by
        simp [processSingleGame, hskip, hread]
      rw [heq] at hs ⊢
      exact hresolved _ (resolveAndWrite_success_id gameName env hs)
  · have hskip' : (shouldSkipExisting && env.fileExists) = false := by
      simpa using hskip
    have heq : processSingleGame gameName shouldSkipExisting env =
        resolveAndWrite gameName env := by
      simp [processSingleGame, hskip']
    rw [heq] at hs ⊢
    exact hresolved _ (resolveAndWrite_success_id gameName env hs)

/-- An environment whose resolver finds id 400 and whose write
succeeds. -/
def writeOkEnv : ProcessEnv :=
  { fileExists := false, readResult := .error "missing",
    resolve := foundEnv,
    writeError := none }

theorem processSingleGame_success_id_nonneg_witness :
    0 ≤ (processSingleGame "Portal" false writeOkEnv).gameID :=
  processSingleGame_success_id_nonneg "Portal" false writeOkEnv
    (fun content storedID h _ => Except.noConfusion h)
    (fun resolvedID h => by
      have h400 : findSteamGameID "Portal" writeOkEnv.resolve = Except.ok 400 := by
        decide
      rw [h400] at h
      injection h with h2
      rw [← h2]
      decide)
    (by decide)

/-- An environment whose parsed response carries a negative first id, as
a hostile remote catalog may produce. -/
def negativeIdEnv : ProcessEnv :=
  { fileExists := false, readResult := .error "missing",
    resolve := { httpResult := .ok (200, .ok "body"),
                 jsonResult := .ok { items := [{ id := -1, name := "Broken" }] } },
    writeError := none }

/-- Claim C8 as stated is false: the code never checks the sign, so a
response item with id -1 is reported as a success carrying -1. -/
theorem processSingleGame_negative_id_counterexample :
    (processSingleGame "Broken" false negativeIdEnv).success = true ∧
    (processSingleGame "Broken" false negativeIdEnv).gameID < 0 := by
  decide

/-! ### Worker Pool and Aggregator (src/main.go, `workerGoroutine` lines
221-226, `main` lines 300-353)

The worker-count clamp of lines 300-304 is a pure computation on Go
`int`s.  The channel semantics are embedded by quantifying over every
behaviour they allow: the job queue delivers each query to exactly one
worker (an `assignment` whose concatenation is a permutation of the
query list), each worker maps `processSingleGame` over its share, and
the result queue delivers the produced results to the aggregation loop
in an arbitrary order (any permutation of all workers' outputs). -/

/-- Lines 300-304: `actualWorkerCount := *workerCountFlag; if totalGames <
actualWorkerCount { actualWorkerCount = totalGames }`. -/
def actualWorkerCount (configuredWorkers totalGames : Int) : Int :=
  if totalGames < configuredWorkers then totalGames else configuredWorkers

/-- `workerGoroutine` (lines 221-226): one worker processes each of its
jobs in order, producing one result per job; `envOf` gives the external
outcomes seen for a query. -/
def runWorker (shouldSkipExisting : Bool) (envOf : String → ProcessEnv)
    (jobs : List String) : List GameResult :=
  jobs.map (fun gameName =>
    processSingleGame gameName shouldSkipExisting (envOf gameName))

/-- The aggregation loop of `main` (lines 331-353): running success
count, failure count, and failed names in completion order. -/
def aggregateLoop : List GameResult → Nat → Nat → List String →
    Nat × Nat × List String
  | [], successCount, failedCount, failedGameNames =>
    (successCount, failedCount, failedGameNames)
  | r :: rest, successCount, failedCount, failedGameNames =>
    if r.success then
      aggregateLoop rest (successCount + 1) failedCount failedGameNames
    else
      aggregateLoop rest successCount (failedCount + 1)
        (failedGameNames ++ [r.gameName])

/-- The aggregator started from zero counts (lines 332-335). -/
def aggregateResults (results : List GameResult) : Nat × Nat × List String :=
  aggregateLoop results 0 0 []

theorem aggregateLoop_counts :
    ∀ (results : List GameResult) (s f : Nat) (ns : List String),
      (aggregateLoop results s f ns).1 + (aggregateLoop results s f ns).2.1 =
        s + f + results.length := by
  intro results
  induction results with
  | nil => intro s f ns; simp [aggregateLoop]
  | cons r rest ih =>
    intro s f ns
    unfold aggregateLoop
    split
    · rw [ih]
      simp only [List.length_cons]
      omega
    · rw [ih]
      simp only [List.length_cons]
      omega

theorem length_join_runWorker (shouldSkipExisting : Bool)
    (envOf : String → ProcessEnv) :
    ∀ (assignment : List (List String)),
      ((assignment.map (runWorker shouldSkipExisting envOf)).flatten).length =
        assignment.flatten.length := by
  intro assignment
  induction assignment with
  | nil => rfl
  | cons jobs rest ih => simp [runWorker, ih]

/-! ### Claim theorems about the pool and the aggregator -/

/-- Claim C6: the effective worker count of lines 300-304 equals
min(configuredWorkers, totalGames), and is at least 1 whenever the query
list is non-empty, for every configured worker count in the run
parameter's domain (a positive integer, per the spec's run
parameters). -/
theorem actualWorkerCount_min (configuredWorkers totalGames : Int) :
    actualWorkerCount configuredWorkers totalGames =
      min configuredWorkers totalGames ∧
    (1 ≤ configuredWorkers → 1 ≤ totalGames →
      1 ≤ actualWorkerCount configuredWorkers totalGames) := by
  unfold actualWorkerCount
  constructor
  · split <;> omega
  · intro h1 h2
    split <;> omega

theorem actualWorkerCount_min_witness :
    actualWorkerCount 8 3 = min 8 3 ∧ 1 ≤ actualWorkerCount 8 3 :=
  ⟨(actualWorkerCount_min 8 3).1,
   (actualWorkerCount_min 8 3).2 (by decide) (by decide)⟩

/-- Claim C7: for every query list, every delivery of the queries to the
workers (each query to exactly one worker) and every completion order of
the produced results, the aggregation loop consumes exactly N results
and its success count plus failure count equals N. -/
theorem aggregator_consumes_all (queries : List String)
    (assignment : List (List String)) (stream : List GameResult)
    (shouldSkipExisting : Bool) (envOf : String → ProcessEnv)
    (hassign : assignment.flatten.Perm queries)
    (hstream : stream.Perm
      ((assignment.map (runWorker shouldSkipExisting envOf)).flatten)) :
    stream.length = queries.length ∧
    (aggregateResults stream).1 + (aggregateResults stream).2.1 =
      queries.length := by
  have hlen : stream.length = queries.length := by
    rw [hstream.length_eq,
      length_join_runWorker shouldSkipExisting envOf assignment,
      hassign.length_eq]
  refine ⟨hlen, ?_⟩
  have hc := aggregateLoop_counts stream 0 0 []
  unfold aggregateResults
  rw [hc, hlen]
  omega

def demoEnvOf : String → ProcessEnv := fun _ => writeOkEnv

theorem aggregator_consumes_all_witness :
    (([["Portal"], ["Half-Life"]].map (runWorker false demoEnvOf)).flatten).length =
      (["Portal", "Half-Life"] : List String).length ∧
    (aggregateResults
        (([["Portal"], ["Half-Life"]].map (runWorker false demoEnvOf)).flatten)).1 +
      (aggregateResults
        (([["Portal"], ["Half-Life"]].map (runWorker false demoEnvOf)).flatten)).2.1 =
      (["Portal", "Half-Life"] : List String).length :=
  aggregator_consumes_all ["Portal", "Half-Life"] [["Portal"], ["Half-Life"]] _
    false demoEnvOf (List.Perm.refl _) (List.Perm.refl _)

end IdSteamed
